import Mathlib

/-!
Verification of the eino-ai-agent conversation core against its specification.

The Go sources are embedded shallowly: messages are values of `schema.Message`,
nullable `*schema.Message` pointers are `Option schema.Message`, `int64` token
counts are `Int`, fallible operations return `Except String`, and the external
capabilities (token counter, summarizer chain, persistence store) are explicit
function parameters.  Each definition is a direct translation of the function
of the same name in the repository.
-/

set_option maxHeartbeats 1000000

namespace schema

/-- Role constant `schema.System` (roles are strings in the eino schema). -/
def System : String := "system"

/-- Role constant `schema.User`. -/
def User : String := "user"

/-- Role constant `schema.Assistant`. -/
def Assistant : String := "assistant"

/-- Role constant `schema.Tool`. -/
def Tool : String := "tool"

/-- `schema.FunctionCall`: the function name and raw argument text of a tool call. -/
structure FunctionCall where
  Name : String
  Arguments : String
deriving DecidableEq, Repr

/-- `schema.ToolCall`: one tool call issued by an assistant message. -/
structure ToolCall where
  ID : String
  Function : FunctionCall
deriving DecidableEq, Repr

/-- `schema.Message`.  `Extra` (Go `map[string]any`) is modelled as an ordered
key/value list; the repository only ever tests key membership and stores the
map opaquely, so string values suffice. -/
structure Message where
  Role : String
  Content : String
  ToolCalls : List ToolCall
  ToolCallID : String
  Extra : List (String × String)
deriving DecidableEq, Repr

/-- `schema.UserMessage`: a plain user message. -/
def UserMessage (content : String) : Message :=
  ⟨User, content, [], "", []⟩

/-- `schema.ToolMessage(content, toolCallID)`: a tool-role message carrying the
given content and originating call id, with no tool calls and no annotations. -/
def ToolMessage (content : String) (toolCallID : String) : Message :=
  ⟨Tool, content, [], toolCallID, []⟩

end schema

namespace summarization

open schema

/-- The annotation key marking a generated summary message
(`summaryMessageFlag` in the summarization package). -/
def summaryMessageFlag : String := "_summary_message"

/-- `messageBlock`: a contiguous group of messages with its aggregate token count. -/
structure messageBlock where
  msgs : List Message
  tokens : Int
deriving DecidableEq, Repr

/-- Step-2 phase 1 of `splitMessages` (part_005 lines 171-179): a leading
non-nil System-role message, if present, forms the system block; the cursor
does not advance otherwise.  The parallel `messages`/`msgsToken` arrays are
zipped into one list of pairs. -/
def takeSystem : List (Option Message × Int) → messageBlock × List (Option Message × Int)
  | [] => (⟨[], 0⟩, [])
  | (m?, t) :: rest =>
    match m? with
    | some m =>
      if m.Role = System then (⟨[m], t⟩, rest)
      else (⟨[], 0⟩, (some m, t) :: rest)
    | none => (⟨[], 0⟩, (none, t) :: rest)

/-- Step-2 phase 2 of `splitMessages` (part_005 lines 181-194): consecutive
leading User-role messages form the initial-user block; a nil entry is skipped
(`idx++; continue`), and the scan stops at the first non-User message. -/
def takeInitialUser : List (Option Message × Int) → messageBlock × List (Option Message × Int)
  | [] => (⟨[], 0⟩, [])
  | (none, _) :: rest => takeInitialUser rest
  | (some m, t) :: rest =>
    if m.Role = User then
      let (b, r) := takeInitialUser rest
      (⟨m :: b.msgs, t + b.tokens⟩, r)
    else (⟨[], 0⟩, (some m, t) :: rest)

/-- Step-2 phase 3 of `splitMessages` (part_005 lines 196-206): a following
Assistant-role message tagged with `summaryMessageFlag` in `Extra` forms the
prior-summary block. -/
def takeSummary : List (Option Message × Int) → messageBlock × List (Option Message × Int)
  | [] => (⟨[], 0⟩, [])
  | (none, t) :: rest => (⟨[], 0⟩, (none, t) :: rest)
  | (some m, t) :: rest =>
    if m.Role = Assistant ∧ (m.Extra.lookup summaryMessageFlag).isSome then
      (⟨[m], t⟩, rest)
    else (⟨[], 0⟩, (some m, t) :: rest)

/-- The absorption loop of a tool-exchange block (part_005 lines 222-239):
starting after an assistant message whose call ids are `callIDs`, absorb every
immediately following Tool-role message whose `ToolCallID` is empty or matches
one of the ids; stop at the first nil, non-Tool, or non-matching message.
Returns the absorbed messages with their token sum, and the unconsumed rest. -/
def absorbTools (callIDs : List String) :
    List (Option Message × Int) → (List Message × Int) × List (Option Message × Int)
  | [] => (([], 0), [])
  | (none, t) :: rest => (([], 0), (none, t) :: rest)
  | (some nm, t) :: rest =>
    if nm.Role = Tool ∧ (nm.ToolCallID = "" ∨ nm.ToolCallID ∈ callIDs) then
      let ((ms, tk), r) := absorbTools callIDs rest
      ((nm :: ms, t + tk), r)
    else (([], 0), (some nm, t) :: rest)

/-- Fuelled form of the step-4 grouping loop of `splitMessages`
(part_005 lines 208-245): a nil entry is skipped; an Assistant message with
tool calls opens a tool-exchange block absorbing matching Tool messages; any
other message becomes its own singleton block.  The fuel only bounds the
recursion; `splitToolBlocks` supplies enough for it never to run out. -/
def splitToolBlocksF : Nat → List (Option Message × Int) → List messageBlock
  | 0, _ => []
  | _ + 1, [] => []
  | fuel + 1, (none, _) :: rest => splitToolBlocksF fuel rest
  | fuel + 1, (some m, t) :: rest =>
    if m.Role = Assistant ∧ m.ToolCalls ≠ [] then
      let res := absorbTools (m.ToolCalls.map ToolCall.ID) rest
      ⟨m :: res.1.1, t + res.1.2⟩ :: splitToolBlocksF fuel res.2
    else ⟨[m], t⟩ :: splitToolBlocksF fuel rest

/-- Step-4 grouping of `splitMessages` over the remaining messages. -/
def splitToolBlocks (l : List (Option Message × Int)) : List messageBlock :=
  splitToolBlocksF (l.length + 1) l

/-- `splitMessages` (part_005 lines 168-248): classify the message list into
the optional system, initial-user and prior-summary blocks and the ordered
step-4 blocks.  The Go function reads the parallel `msgsToken` array at the
same index as `messages`; the caller (`ProcessMessages`) guarantees equal
lengths, under which the zip used here is exact. -/
def splitMessages (messages : List (Option Message)) (msgsToken : List Int) :
    messageBlock × messageBlock × messageBlock × List messageBlock :=
  let l0 := messages.zip msgsToken
  let (systemBlock, l1) := takeSystem l0
  let (userBlock, l2) := takeInitialUser l1
  let (summaryBlock, l3) := takeSummary l2
  (systemBlock, userBlock, summaryBlock, splitToolBlocks l3)

/-- The budget-split loop of `ProcessMessages` (part_005 lines 135-147):
walk the step-4 blocks from newest to oldest with a running recent-token
total; a block that would push the total over `maxRecent` is prepended to the
older list, otherwise it is prepended to the recent list and counted.
Returns `(recentBlocks, olderBlocks, recentTokens)`. -/
def budgetSplit (maxRecent : Int) (toolBlocks : List messageBlock) :
    List messageBlock × List messageBlock × Int :=
  toolBlocks.reverse.foldl
    (fun acc b =>
      let (recent, older, tok) := acc
      if tok + b.tokens > maxRecent then (recent, b :: older, tok)
      else (b :: recent, older, tok + b.tokens))
    ([], [], 0)

/-- `renderMsg` (part_005 lines 261-288) on a non-nil message: role tag,
content, and for call-bearing assistant messages each call's function name and
arguments.  (The Go nil branch returns ""; blocks only hold non-nil messages.) -/
def renderMsg (m : Message) : String :=
  "[" ++ m.Role ++ "]\n" ++
  (if m.Content ≠ "" then m.Content ++ "\n" else "") ++
  (if m.Role = Assistant ∧ m.ToolCalls ≠ [] then
    String.join (m.ToolCalls.map (fun tc =>
      (if tc.Function.Name ≠ "" then "tool_call: " ++ tc.Function.Name ++ "\n" else "") ++
      (if tc.Function.Arguments ≠ "" then "args: " ++ tc.Function.Arguments ++ "\n" else "")))
  else "")

/-- `joinBlocks` (part_005 lines 250-259): render every message of every block,
each followed by a newline. -/
def joinBlocks (blocks : List messageBlock) : String :=
  String.join (blocks.map (fun b => String.join (b.msgs.map (fun m => renderMsg m ++ "\n"))))

/-- `ProcessMessages` (part_005 lines 108-161).  The token counter and the
compiled summarizer chain are the middleware's two capabilities, passed as
functions; `maxBefore`/`maxRecent` are the positive thresholds installed by
`New`.  All success paths return the input list; the summary is only a side
effect. -/
def ProcessMessages
    (counter : List (Option Message) → Except String (List Int))
    (summarizer : String → Except String Message)
    (maxBefore maxRecent : Int)
    (messages : List (Option Message)) : Except String (List (Option Message)) :=
  if messages = [] then Except.ok messages
  else
    match counter messages with
    | Except.error e => Except.error ("count token failed: " ++ e)
    | Except.ok msgsToken =>
      if messages.length ≠ msgsToken.length then
        Except.error ("token count mismatch: msgNum=" ++ toString messages.length ++
          ", tokenCountNum=" ++ toString msgsToken.length)
      else
        let total := msgsToken.foldl (fun a b => a + b) 0
        if total ≤ maxBefore then Except.ok messages
        else
          let blocks := splitMessages messages msgsToken
          let split := budgetSplit maxRecent blocks.2.2.2
          let olderText := joinBlocks split.2.1
          match summarizer olderText with
          | Except.error e => Except.error ("summarize failed: " ++ e)
          | Except.ok _ => Except.ok messages

end summarization

namespace memory

open schema

/-- The map held by `InMemoryStore` (inmem.go), `sessionID → messages`,
modelled as an association list where an assignment shadows older entries. -/
abbrev StoreData := List (String × List Message)

/-- `InMemoryStore.Write` (inmem.go lines 25-34): store (a copy of) the
message list under the session id.  Copying a list of values is the identity
in the functional model. -/
def InMemoryStore.Write (data : StoreData) (sessionID : String)
    (msgs : List Message) : StoreData :=
  (sessionID, msgs) :: data

/-- `InMemoryStore.Read` (inmem.go lines 37-50): return (a copy of) the stored
message list, or `none` when the session id is absent (Go `nil, nil`). -/
def InMemoryStore.Read (data : StoreData) (sessionID : String) :
    Option (List Message) :=
  data.lookup sessionID

/-- One token of the serialized form of a message list: a length or a string
field.  Modelled from the spec: `EncodeMessages`/`DecodeMessages`
(inmem.go lines 70-88) delegate to the external `encoding/gob` engine, which
is not part of this repository; §6 specifies only that the serialization is
opaque and must round-trip the full Message shape, so the engine is modelled
as a field-ordered structural codec for the message type. -/
inductive EncTok where
  | n (v : Nat)
  | s (v : String)
deriving DecidableEq, Repr

/-- Serialized form of one tool call: id, function name, argument text. -/
def encodeToolCall (tc : ToolCall) : List EncTok :=
  [EncTok.s tc.ID, EncTok.s tc.Function.Name, EncTok.s tc.Function.Arguments]

/-- Serialized form of one message: every field of `schema.Message` in
declaration order, with lists length-prefixed. -/
def encodeMsg (m : Message) : List EncTok :=
  [EncTok.s m.Role, EncTok.s m.Content, EncTok.n m.ToolCalls.length] ++
    (m.ToolCalls.map encodeToolCall).flatten ++
    [EncTok.s m.ToolCallID, EncTok.n m.Extra.length] ++
    (m.Extra.map (fun kv => [EncTok.s kv.1, EncTok.s kv.2])).flatten

/-- `EncodeMessages` with the gob engine modelled per §6 (see `EncTok`). -/
def EncodeMessages (msgs : List Message) : List EncTok :=
  EncTok.n msgs.length :: (msgs.map encodeMsg).flatten

/-- Decode `count` length-prefixed tool calls. -/
def decodeToolCalls : Nat → List EncTok → Option (List ToolCall × List EncTok)
  | 0, toks => some ([], toks)
  | count + 1, EncTok.s i :: EncTok.s nm :: EncTok.s ar :: rest =>
    (decodeToolCalls count rest).map (fun p => (⟨i, nm, ar⟩ :: p.1, p.2))
  | _ + 1, _ => none

/-- Decode `count` annotation key/value pairs. -/
def decodeExtra : Nat → List EncTok → Option (List (String × String) × List EncTok)
  | 0, toks => some ([], toks)
  | count + 1, EncTok.s k :: EncTok.s v :: rest =>
    (decodeExtra count rest).map (fun p => ((k, v) :: p.1, p.2))
  | _ + 1, _ => none

/-- Decode one serialized message. -/
def decodeMsg (toks : List EncTok) : Option (Message × List EncTok) :=
  match toks with
  | EncTok.s role :: EncTok.s content :: EncTok.n ntc :: rest =>
    match decodeToolCalls ntc rest with
    | some (tcs, EncTok.s tcid :: EncTok.n nex :: rest2) =>
      (decodeExtra nex rest2).map (fun p => (⟨role, content, tcs, tcid, p.1⟩, p.2))
    | _ => none
  | _ => none

/-- Decode `count` serialized messages. -/
def decodeMsgList : Nat → List EncTok → Option (List Message × List EncTok)
  | 0, toks => some ([], toks)
  | count + 1, toks =>
    match decodeMsg toks with
    | some (m, rest) => (decodeMsgList count rest).map (fun p => (m :: p.1, p.2))
    | none => none

/-- `DecodeMessages` with the gob engine modelled per §6 (see `EncTok`). -/
def DecodeMessages (toks : List EncTok) : Option (List Message) :=
  match toks with
  | EncTok.n count :: rest =>
    match decodeMsgList count rest with
    | some (msgs, []) => some msgs
    | _ => none
  | _ => none

end memory

namespace agent

open schema

/-- A conversation `Session` (agent.go lines 32-36): its id and ordered
message history.  The per-session mutex guards concurrent access only and has
no functional content. -/
structure Session where
  ID : String
  Messages : List Message
deriving DecidableEq, Repr

/-- The agent's `sessions` map (`map[string]*Session`), modelled as an
association list where insertion shadows older entries. -/
abbrev Sessions := List (String × Session)

/-- The persistence capability's `Read` as seen by the agent: a pair of the
returned message list (`nil` = `none`) and the optional error.  Both stores in
the repository return `nil` messages whenever they return an error. -/
abbrev ReadResult := Option (List Message) × Option String

/-- `GetOrCreateSession` (agent.go lines 131-162): return the existing
in-memory session unchanged if present; otherwise read the persistence
capability — the error, if any, is only logged — install a session holding the
messages read (empty when the read produced `nil`), and return it.  The Go
function has no error return: it is total. -/
def GetOrCreateSession (store : String → ReadResult) (sessions : Sessions)
    (sessionID : String) : Session × Sessions :=
  match sessions.lookup sessionID with
  | some session => (session, sessions)
  | none =>
    let msgs := ((store sessionID).1).getD []
    let session : Session := ⟨sessionID, msgs⟩
    (session, (sessionID, session) :: sessions)

/-- `ClearSession` (agent.go lines 315-320): drop the in-memory entry. -/
def ClearSession (sessions : Sessions) (sessionID : String) : Sessions :=
  sessions.filter (fun p => ¬ p.1 = sessionID)

/-- `AppendAssistantMessage` (agent.go lines 335-348): if the session exists,
append the message to its history; otherwise do nothing.  The Go function has
no error return: it is total. -/
def AppendAssistantMessage (sessions : Sessions) (sessionID : String)
    (message : Message) : Sessions :=
  match sessions.lookup sessionID with
  | none => sessions
  | some session =>
    sessions.map (fun p =>
      if p.1 = sessionID then (p.1, ⟨session.ID, session.Messages ++ [message]⟩)
      else p)

end agent

/-- Whitespace for Go's `strings.TrimSpace` (`unicode.IsSpace`): ASCII
whitespace, NEL, NBSP and the Unicode space separators. -/
def goIsSpace (c : Char) : Bool :=
  c.toNat = 9 ∨ c.toNat = 10 ∨ c.toNat = 11 ∨ c.toNat = 12 ∨ c.toNat = 13 ∨
  c.toNat = 32 ∨ c.toNat = 0x85 ∨ c.toNat = 0xA0 ∨ c.toNat = 0x1680 ∨
  (0x2000 ≤ c.toNat ∧ c.toNat ≤ 0x200A) ∨
  c.toNat = 0x2028 ∨ c.toNat = 0x2029 ∨ c.toNat = 0x202F ∨
  c.toNat = 0x205F ∨ c.toNat = 0x3000

/-- `strings.TrimSpace`: drop leading and trailing whitespace. -/
def trimSpace (s : String) : String :=
  ⟨((s.data.dropWhile goIsSpace).reverse.dropWhile goIsSpace).reverse⟩

/-- `leadsWith pre cs`: `cs` begins with the characters `pre`
(Go `strings.HasPrefix`). -/
def leadsWith : List Char → List Char → Bool
  | [], _ => true
  | _ :: _, [] => false
  | a :: as, b :: bs => a == b && leadsWith as bs

namespace agent

open schema

/-- JSON values, for the model of `encoding/json` used by `formatToolResult`.
Numeric literals are kept as their source text: the decode into the MCP result
struct never reads them. -/
inductive Json where
  | null
  | bool (b : Bool)
  | num (lit : String)
  | str (s : String)
  | arr (elems : List Json)
  | obj (fields : List (String × Json))
deriving Repr

/-- Insignificant JSON whitespace (RFC 8259, as in `encoding/json`). -/
def jsonSpace (c : Char) : Bool :=
  c == ' ' || c == '\t' || c == '\n' || c == '\r'

/-- The opening-brace character. -/
def lcurly : Char := Char.ofNat 0x7B

/-- The closing-brace character. -/
def rcurly : Char := Char.ofNat 0x7D

/-- Value of one hexadecimal digit. -/
def hexDigit (c : Char) : Option Nat :=
  if '0' ≤ c ∧ c ≤ '9' then some (c.toNat - 48)
  else if 'a' ≤ c ∧ c ≤ 'f' then some (c.toNat - 87)
  else if 'A' ≤ c ∧ c ≤ 'F' then some (c.toNat - 55)
  else none

/-- Parse the body of a JSON string after its opening quote, handling the
escape sequences of RFC 8259; returns the decoded characters and the input
following the closing quote.  The fuel only bounds recursion depth. -/
def parseStringBody : Nat → List Char → Option (List Char × List Char)
  | 0, _ => none
  | _ + 1, [] => none
  | fuel + 1, c :: rest =>
    if c = '"' then some ([], rest)
    else if c = '\\' then
      match rest with
      | [] => none
      | e :: rest2 =>
        if e = 'u' then
          match rest2 with
          | h1 :: h2 :: h3 :: h4 :: rest3 =>
            match hexDigit h1, hexDigit h2, hexDigit h3, hexDigit h4 with
            | some a, some b, some c2, some d =>
              (parseStringBody fuel rest3).map
                (fun p => (Char.ofNat (a * 4096 + b * 256 + c2 * 16 + d) :: p.1, p.2))
            | _, _, _, _ => none
          | _ => none
        else
          match
            (if e = '"' then some '"'
             else if e = '\\' then some '\\'
             else if e = '/' then some '/'
             else if e = 'b' then some (Char.ofNat 8)
             else if e = 'f' then some (Char.ofNat 12)
             else if e = 'n' then some '\n'
             else if e = 'r' then some '\r'
             else if e = 't' then some '\t'
             else none) with
          | some decoded => (parseStringBody fuel rest2).map (fun p => (decoded :: p.1, p.2))
          | none => none
    else if c.toNat < 32 then none
    else (parseStringBody fuel rest).map (fun p => (c :: p.1, p.2))

/-- Split off a maximal run of decimal digits. -/
def spanDigits (cs : List Char) : List Char × List Char :=
  cs.span (fun c => c.isDigit)

/-- Parse the optional fraction part of a JSON number. -/
def parseFrac (cs : List Char) : Option (List Char × List Char) :=
  match cs with
  | c :: rest =>
    if c = '.' then
      match spanDigits rest with
      | ([], _) => none
      | (ds, rest2) => some ('.' :: ds, rest2)
    else some ([], cs)
  | [] => some ([], cs)

/-- Parse the optional exponent part of a JSON number. -/
def parseExp (cs : List Char) : Option (List Char × List Char) :=
  match cs with
  | c :: rest =>
    if c = 'e' ∨ c = 'E' then
      let (sgn, rest1) :=
        match rest with
        | s :: r => if s = '+' ∨ s = '-' then ([s], r) else ([], rest)
        | [] => ([], rest)
      match spanDigits rest1 with
      | ([], _) => none
      | (ds, rest2) => some (c :: (sgn ++ ds), rest2)
    else some ([], cs)
  | [] => some ([], cs)

/-- Parse a JSON number literal (RFC 8259 grammar): optional minus, integer
part without leading zeros, optional fraction and exponent. -/
def parseNumber (cs : List Char) : Option (List Char × List Char) :=
  let (neg, cs1) :=
    match cs with
    | c :: rest => if c = '-' then (['-'], rest) else ([], cs)
    | [] => ([], cs)
  match cs1 with
  | [] => none
  | c :: rest =>
    let intPart : Option (List Char × List Char) :=
      if c = '0' then some (['0'], rest)
      else if c.isDigit then
        let (ds, rest2) := spanDigits rest
        some (c :: ds, rest2)
      else none
    match intPart with
    | none => none
    | some (ip, rest2) =>
      match parseFrac rest2 with
      | none => none
      | some (fp, rest3) =>
        match parseExp rest3 with
        | none => none
        | some (ep, rest4) => some (neg ++ ip ++ fp ++ ep, rest4)

mutual

/-- Parse one JSON value, skipping leading whitespace; returns the value and
the unconsumed input.  The fuel only bounds recursion depth; `parseJson`
supplies enough for it never to run out on its input. -/
def parseValue : Nat → List Char → Option (Json × List Char)
  | 0, _ => none
  | fuel + 1, cs0 =>
    let cs := cs0.dropWhile jsonSpace
    match cs with
    | [] => none
    | c :: rest =>
      if c = 'n' then
        match rest with
        | 'u' :: 'l' :: 'l' :: r => some (Json.null, r)
        | _ => none
      else if c = 't' then
        match rest with
        | 'r' :: 'u' :: 'e' :: r => some (Json.bool true, r)
        | _ => none
      else if c = 'f' then
        match rest with
        | 'a' :: 'l' :: 's' :: 'e' :: r => some (Json.bool false, r)
        | _ => none
      else if c = '"' then
        (parseStringBody (fuel + 1) rest).map (fun p => (Json.str ⟨p.1⟩, p.2))
      else if c = '[' then
        let r1 := rest.dropWhile jsonSpace
        match r1 with
        | [] => none
        | d :: r2 =>
          if d = ']' then some (Json.arr [], r2)
          else (parseElems fuel r1).map (fun p => (Json.arr p.1, p.2))
      else if c = lcurly then
        let r1 := rest.dropWhile jsonSpace
        match r1 with
        | [] => none
        | d :: r2 =>
          if d = rcurly then some (Json.obj [], r2)
          else (parseMembers fuel r1).map (fun p => (Json.obj p.1, p.2))
      else
        (parseNumber cs).map (fun p => (Json.num ⟨p.1⟩, p.2))

/-- Parse the non-empty element list of a JSON array, up to and including the
closing bracket. -/
def parseElems : Nat → List Char → Option (List Json × List Char)
  | 0, _ => none
  | fuel + 1, cs =>
    match parseValue fuel cs with
    | none => none
    | some (v, rest) =>
      match rest.dropWhile jsonSpace with
      | [] => none
      | c :: r2 =>
        if c = ',' then (parseElems fuel r2).map (fun p => (v :: p.1, p.2))
        else if c = ']' then some ([v], r2)
        else none

/-- Parse the non-empty member list of a JSON object, up to and including the
closing brace. -/
def parseMembers : Nat → List Char → Option (List (String × Json) × List Char)
  | 0, _ => none
  | fuel + 1, cs =>
    match cs.dropWhile jsonSpace with
    | [] => none
    | c :: rest =>
      if c = '"' then
        match parseStringBody fuel rest with
        | none => none
        | some (key, r1) =>
          match r1.dropWhile jsonSpace with
          | [] => none
          | d :: r3 =>
            if d = ':' then
              match parseValue fuel r3 with
              | none => none
              | some (v, r4) =>
                match r4.dropWhile jsonSpace with
                | [] => none
                | e :: r6 =>
                  if e = ',' then
                    (parseMembers fuel r6).map (fun p => ((⟨key⟩, v) :: p.1, p.2))
                  else if e = rcurly then some ([(⟨key⟩, v)], r6)
                  else none
            else none
      else none

end

/-- `json.Unmarshal`'s outer contract as used by `formatToolResult`: the whole
input must be exactly one JSON value followed only by whitespace. -/
def parseJson (s : String) : Option Json :=
  match parseValue (2 * s.data.length + 2) s.data with
  | none => none
  | some (v, rest) => if rest.dropWhile jsonSpace = [] then some v else none

/-- Lower-case an ASCII letter (the struct field tags matched by
`formatToolResult` are plain ASCII). -/
def asciiLower (c : Char) : Char :=
  if 'A' ≤ c ∧ c ≤ 'Z' then Char.ofNat (c.toNat + 32) else c

/-- `encoding/json`'s case-insensitive field-name match. -/
def foldEq (a b : String) : Bool :=
  a.data.map asciiLower == b.data.map asciiLower

/-- One typed content part of an MCP tool result, the anonymous
`struct { Type string; Text string }` element in `formatToolResult`. -/
structure McpContentItem where
  type : String
  text : String
deriving DecidableEq, Repr

/-- Decode the fields of one content-part object the way `json.Unmarshal`
fills the element struct: keys are matched case-insensitively, later
duplicates win, `null` leaves a field untouched, a non-string value for
`type`/`text` is an error, unknown keys are ignored. -/
def decodeItemFields : List (String × Json) → McpContentItem → Option McpContentItem
  | [], acc => some acc
  | (k, v) :: rest, acc =>
    if foldEq k "type" then
      match v with
      | Json.str s => decodeItemFields rest ⟨s, acc.text⟩
      | Json.null => decodeItemFields rest acc
      | _ => none
    else if foldEq k "text" then
      match v with
      | Json.str s => decodeItemFields rest ⟨acc.type, s⟩
      | Json.null => decodeItemFields rest acc
      | _ => none
    else decodeItemFields rest acc

/-- Decode one element of the `content` array (`null` yields the zero struct,
anything but an object is an error). -/
def decodeItem : Json → Option McpContentItem
  | Json.obj fields => decodeItemFields fields ⟨"", ""⟩
  | Json.null => some ⟨"", ""⟩
  | _ => none

/-- Decode every element of the `content` array; any element error aborts. -/
def decodeItems : List Json → Option (List McpContentItem)
  | [] => some []
  | j :: rest =>
    match decodeItem j, decodeItems rest with
    | some i, some is => some (i :: is)
    | _, _ => none

/-- Decode the top-level fields of the MCP result struct: the
(case-insensitively matched) `content` key must hold an array of content
parts or `null`; other keys are ignored; later duplicates win. -/
def decodeMcpFields : List (String × Json) → List McpContentItem → Option (List McpContentItem)
  | [], acc => some acc
  | (k, v) :: rest, acc =>
    if foldEq k "content" then
      match v with
      | Json.arr es =>
        match decodeItems es with
        | some is => decodeMcpFields rest is
        | none => none
      | Json.null => decodeMcpFields rest []
      | _ => none
    else decodeMcpFields rest acc

/-- `json.Unmarshal` of the whole tool-result payload into the anonymous
`mcpResult` struct of `formatToolResult`. -/
def decodeMcpResult : Json → Option (List McpContentItem)
  | Json.obj fields => decodeMcpFields fields []
  | Json.null => some []
  | _ => none

/-- The characters of the literal prefix checked by `formatToolResult`,
`strings.HasPrefix(content, "{\"content\"")`. -/
def mcpPrefix : List Char :=
  lcurly :: "\"content\"".data

/-- `formatToolResult` (agent.go lines 372-404): trim the content; unless it
starts with the MCP prefix, return the trimmed content; otherwise parse it and
concatenate the text of every part with type `"text"` and non-empty text;
a parse failure or an empty concatenation falls back to the trimmed content. -/
def formatToolResult (content0 : String) : String :=
  let content := trimSpace content0
  if ¬ leadsWith mcpPrefix content.data then content
  else
    match parseJson content with
    | none => content
    | some j =>
      match decodeMcpResult j with
      | none => content
      | some items =>
        let formatted := String.join (items.map (fun it =>
          if it.type = "text" ∧ it.text ≠ "" then it.text else ""))
        if formatted = "" then content else formatted

/-- The `AfterChatModel` middleware installed by `NewAgent`
(agent.go lines 69-88): every Tool-role message with non-empty content whose
formatted form differs from the raw content is replaced by
`schema.ToolMessage(formatted, toolCallID)`, where `toolCallID` is read from
the message's own `ToolCalls[0].ID` when `ToolCalls` is non-empty and is `""`
otherwise. -/
def afterChatModel (messages : List Message) : List Message :=
  messages.map (fun msg =>
    if msg.Role = Tool ∧ msg.Content ≠ "" then
      let formatted := formatToolResult msg.Content
      if formatted ≠ msg.Content then
        let toolCallID :=
          match msg.ToolCalls with
          | [] => ""
          | tc :: _ => tc.ID
        ToolMessage formatted toolCallID
      else msg
    else msg)

end agent

section Claims

open schema summarization memory agent

/-- C1: In the budget split over the step-4 block sequence, walking newest to
oldest with a running recent-token total starting at zero, each block is
tested independently: the oldest block `b` is tested against the total
accumulated over all newer blocks (so the walk never stops at an overflow);
on overflow it is prepended to the older list with the total unchanged,
otherwise it is prepended to the recent list and counted.  On token counts
`[3,4,5]` oldest-to-newest with budget 10, recent gets the 4- and 5-token
blocks (total 9) and older gets the 3-token block, each in original order. -/
theorem budgetSplit_tests_every_block :
    (∀ (maxRecent : Int) (b : messageBlock) (blocks : List messageBlock),
      budgetSplit maxRecent (b :: blocks) =
        (if (budgetSplit maxRecent blocks).2.2 + b.tokens > maxRecent then
          ((budgetSplit maxRecent blocks).1,
            b :: (budgetSplit maxRecent blocks).2.1,
            (budgetSplit maxRecent blocks).2.2)
        else
          (b :: (budgetSplit maxRecent blocks).1,
            (budgetSplit maxRecent blocks).2.1,
            (budgetSplit maxRecent blocks).2.2 + b.tokens))) ∧
    budgetSplit 10 [⟨[], 3⟩, ⟨[], 4⟩, ⟨[], 5⟩] =
      ([⟨[], 4⟩, ⟨[], 5⟩], [⟨[], 3⟩], 9) := by
  constructor
  · intro maxRecent b blocks
    simp only [budgetSplit, List.reverse_cons, List.foldl_append, List.foldl_cons,
      List.foldl_nil]
  · decide

lemma takeSystem_append (l : List (Option Message × Int)) :
    (takeSystem l).1.msgs.map some ++ (takeSystem l).2.map Prod.fst = l.map Prod.fst := by
  match l with
  | [] => simp [takeSystem]
  | (m?, t) :: rest =>
    cases m? with
    | none => simp [takeSystem]
    | some m =>
      by_cases h : m.Role = System
      · simp [takeSystem, h]
      · simp [takeSystem, h]

lemma takeSystem_mem (l : List (Option Message × Int)) :
    ∀ p ∈ (takeSystem l).2, p ∈ l := by
  match l with
  | [] => simp [takeSystem]
  | (m?, t) :: rest =>
    cases m? with
    | none => simp [takeSystem]
    | some m =>
      by_cases h : m.Role = System
      · intro p hp
        simp only [takeSystem, if_pos h] at hp
        exact List.mem_cons_of_mem _ hp
      · intro p hp
        simpa [takeSystem, h] using hp

lemma takeInitialUser_append (l : List (Option Message × Int))
    (h : ∀ p ∈ l, p.1 ≠ none) :
    (takeInitialUser l).1.msgs.map some ++ (takeInitialUser l).2.map Prod.fst =
      l.map Prod.fst := by
  induction l using takeInitialUser.induct with
  | case1 => simp [takeInitialUser]
  | case2 t rest ih => exact absurd rfl (h (none, t) (by simp))
  | case3 m t rest hr b r he ih =>
    have ih2 := ih (fun p hp => h p (List.mem_cons_of_mem _ hp))
    rw [he] at ih2
    simp [takeInitialUser, hr, he]
    simpa using ih2
  | case4 m t rest hr => simp [takeInitialUser, hr]


lemma takeInitialUser_mem (l : List (Option Message × Int)) :
    ∀ p ∈ (takeInitialUser l).2, p ∈ l := by
  induction l using takeInitialUser.induct with
  | case1 => simp [takeInitialUser]
  | case2 t rest ih =>
    intro p hp
    simp only [takeInitialUser] at hp
    exact List.mem_cons_of_mem _ (ih p hp)
  | case3 m t rest hr b r he ih =>
    intro p hp
    simp only [takeInitialUser, if_pos hr, he] at hp
    exact List.mem_cons_of_mem _ (ih p (by simp [he, hp]))
  | case4 m t rest hr =>
    intro p hp
    simpa [takeInitialUser, hr] using hp

lemma takeSummary_append (l : List (Option Message × Int)) :
    (takeSummary l).1.msgs.map some ++ (takeSummary l).2.map Prod.fst = l.map Prod.fst := by
  match l with
  | [] => simp [takeSummary]
  | (none, t) :: rest => simp [takeSummary]
  | (some m, t) :: rest =>
    simp only [takeSummary]
    split_ifs with h
    · simp
    · simp

lemma takeSummary_mem (l : List (Option Message × Int)) :
    ∀ p ∈ (takeSummary l).2, p ∈ l := by
  match l with
  | [] => simp [takeSummary]
  | (none, t) :: rest => simp [takeSummary]
  | (some m, t) :: rest =>
    intro p hp
    simp only [takeSummary] at hp
    split_ifs at hp with h
    · exact List.mem_cons_of_mem _ hp
    · simpa using hp

lemma absorbTools_append (ids : List String) (l : List (Option Message × Int)) :
    (absorbTools ids l).1.1.map some ++ (absorbTools ids l).2.map Prod.fst =
      l.map Prod.fst := by
  induction l using absorbTools.induct ids with
  | case1 => simp [absorbTools]
  | case2 t rest => simp [absorbTools]
  | case3 nm t rest hc ms tk r he ih =>
    simp only [absorbTools, if_pos hc, he]
    simpa [he] using ih
  | case4 nm t rest hc => simp [absorbTools, hc]

lemma absorbTools_mem (ids : List String) (l : List (Option Message × Int)) :
    ∀ p ∈ (absorbTools ids l).2, p ∈ l := by
  induction l using absorbTools.induct ids with
  | case1 => simp [absorbTools]
  | case2 t rest => simp [absorbTools]
  | case3 nm t rest hc ms tk r he ih =>
    intro p hp
    simp only [absorbTools, if_pos hc, he] at hp
    exact List.mem_cons_of_mem _ (ih p (by simp [he, hp]))
  | case4 nm t rest hc =>
    intro p hp
    simpa [absorbTools, hc] using hp

lemma absorbTools_length_le (ids : List String) (l : List (Option Message × Int)) :
    (absorbTools ids l).2.length ≤ l.length := by
  induction l using absorbTools.induct ids with
  | case1 => simp [absorbTools]
  | case2 t rest => simp [absorbTools]
  | case3 nm t rest hc ms tk r he ih =>
    simp only [absorbTools, if_pos hc, he]
    simp only [he] at ih
    simp at ih ⊢
    omega
  | case4 nm t rest hc => simp [absorbTools, hc]


lemma splitToolBlocksF_flatten :
    ∀ (fuel : Nat) (l : List (Option Message × Int)), l.length < fuel →
    (∀ p ∈ l, p.1 ≠ none) →
    ((splitToolBlocksF fuel l).map messageBlock.msgs).flatten.map some = l.map Prod.fst := by
  intro fuel
  induction fuel with
  | zero => intro l hlen _; omega
  | succ f ih =>
    intro l hlen hsome
    match l with
    | [] => simp [splitToolBlocksF]
    | (none, t) :: rest => exact absurd rfl (hsome (none, t) (by simp))
    | (some m, t) :: rest =>
      simp only [splitToolBlocksF]
      split_ifs with hc
      · have hle := absorbTools_length_le (m.ToolCalls.map ToolCall.ID) rest
        have ih2 := ih (absorbTools (m.ToolCalls.map ToolCall.ID) rest).2
          (by simp at hlen ⊢; omega)
          (fun p hp => hsome p
            (List.mem_cons_of_mem _ (absorbTools_mem (m.ToolCalls.map ToolCall.ID) rest p hp)))
        have happ := absorbTools_append (m.ToolCalls.map ToolCall.ID) rest
        simp only [List.map_cons, List.flatten_cons, List.map_append, List.cons_append]
        rw [ih2, happ]
      · have ih2 := ih rest (by simp at hlen ⊢; omega)
          (fun p hp => hsome p (List.mem_cons_of_mem _ hp))
        simp [ih2]



/-- The System message of the C3 example. -/
def c3sys : Message := ⟨System, "s", [], "", []⟩

/-- First initial-user message of the C3 example. -/
def c3u1 : Message := ⟨User, "u1", [], "", []⟩

/-- Second initial-user message of the C3 example. -/
def c3u2 : Message := ⟨User, "u2", [], "", []⟩

/-- The assistant message of the C3 example, carrying tool calls t1 and t2. -/
def c3asst : Message := ⟨Assistant, "", [⟨"t1", ⟨"f", "x"⟩⟩, ⟨"t2", ⟨"g", "y"⟩⟩], "", []⟩

/-- The tool message answering call t1. -/
def c3t1 : Message := ⟨Tool, "r1", [], "t1", []⟩

/-- The tool message answering call t2. -/
def c3t2 : Message := ⟨Tool, "r2", [], "t2", []⟩

/-- The trailing plain assistant message of the C3 example. -/
def c3fin : Message := ⟨Assistant, "done", [], "", []⟩

/-- The C3 example input `[System, User, User, AssistantWithCalls(t1,t2), Tool(t1), Tool(t2), Assistant]`. -/
def c3msgs : List (Option Message) :=
  [some c3sys, some c3u1, some c3u2, some c3asst, some c3t1, some c3t2, some c3fin]

/-- Unit token counts for the C3 example. -/
def c3toks : List Int := [1, 1, 1, 1, 1, 1, 1]

/-- C3: for every nil-free message list (with a token list of equal length),
the step-2 classification partitions the list exactly: the concatenation of
the system, initial-user and prior-summary blocks and the step-4 blocks in
order reconstructs the original list; and on the example input
`[System, User, User, AssistantWithCalls(t1,t2), Tool(t1), Tool(t2), Assistant]`
it yields exactly the four blocks `System=[sys]`, `InitialUser=[u1,u2]`,
`ToolExchange=[assistant,t1,t2]`, `Singleton=[assistant]`. -/
theorem splitMessages_partitions :
    (∀ (messages : List (Option Message)) (msgsToken : List Int),
      (∀ m ∈ messages, m ≠ none) → messages.length = msgsToken.length →
      ((splitMessages messages msgsToken).1.msgs ++
        (splitMessages messages msgsToken).2.1.msgs ++
        (splitMessages messages msgsToken).2.2.1.msgs ++
        ((splitMessages messages msgsToken).2.2.2.map messageBlock.msgs).flatten).map some =
        messages) ∧
    splitMessages c3msgs c3toks =
      (⟨[c3sys], 1⟩, ⟨[c3u1, c3u2], 2⟩, ⟨[], 0⟩,
        [⟨[c3asst, c3t1, c3t2], 3⟩, ⟨[c3fin], 1⟩]) := by
  constructor
  · intro msgs toks hsome hlen
    rcases h1 : takeSystem (msgs.zip toks) with ⟨sysb, l1⟩
    rcases h2 : takeInitialUser l1 with ⟨userb, l2⟩
    rcases h3 : takeSummary l2 with ⟨sumb, l3⟩
    have hs : splitMessages msgs toks = (sysb, userb, sumb, splitToolBlocks l3) := by
      simp [splitMessages, h1, h2, h3]
    have h0some : ∀ p ∈ msgs.zip toks, p.1 ≠ none :=
      fun p hp => hsome p.1 (List.of_mem_zip hp).1
    have h1some : ∀ p ∈ l1, p.1 ≠ none := by
      intro p hp
      have := takeSystem_mem (msgs.zip toks) p (by rw [h1]; exact hp)
      exact h0some p this
    have h2some : ∀ p ∈ l2, p.1 ≠ none := by
      intro p hp
      have := takeInitialUser_mem l1 p (by rw [h2]; exact hp)
      exact h1some p this
    have h3some : ∀ p ∈ l3, p.1 ≠ none := by
      intro p hp
      have := takeSummary_mem l2 p (by rw [h3]; exact hp)
      exact h2some p this
    have e1 := takeSystem_append (msgs.zip toks)
    rw [h1] at e1
    have e2 := takeInitialUser_append l1 h1some
    rw [h2] at e2
    have e3 := takeSummary_append l2
    rw [h3] at e3
    have e4 := splitToolBlocksF_flatten (l3.length + 1) l3 (by omega) h3some
    have hfst : (msgs.zip toks).map Prod.fst = msgs :=
      List.map_fst_zip msgs toks (le_of_eq hlen)
    rw [hs]
    simp only [List.map_append, List.append_assoc]
    rw [show (splitToolBlocks l3 : List messageBlock) = splitToolBlocksF (l3.length + 1) l3 from rfl,
      e4, e3, e2, e1]
    exact hfst
  · decide

/-- Witness for C3 at the example input. -/
theorem splitMessages_partitions_witness :
    ((splitMessages c3msgs c3toks).1.msgs ++
      (splitMessages c3msgs c3toks).2.1.msgs ++
      (splitMessages c3msgs c3toks).2.2.1.msgs ++
      ((splitMessages c3msgs c3toks).2.2.2.map messageBlock.msgs).flatten).map some =
      c3msgs :=
  splitMessages_partitions.1 c3msgs c3toks (by decide) (by decide)

/-- A token counter assigning 100 tokens to every message. -/
def counter100 : List (Option Message) → Except String (List Int) :=
  fun ms => Except.ok (ms.map (fun _ => 100))

/-- A token counter assigning 10 tokens to every message. -/
def counter10 : List (Option Message) → Except String (List Int) :=
  fun ms => Except.ok (ms.map (fun _ => 10))

/-- A token counter that ignores its input and returns a single count. -/
def counterOne : List (Option Message) → Except String (List Int) :=
  fun _ => Except.ok [1]

/-- A summarizer that always succeeds. -/
def okSummarizer : String → Except String Message :=
  fun _ => Except.ok (UserMessage "summary")

/-- A summarizer that always fails. -/
def errSummarizer : String → Except String Message :=
  fun _ => Except.error "boom"

/-- C4: whenever `ProcessMessages` returns successfully, the returned list is
the original input message list unchanged; summary generation has no visible
effect on the returned history. -/
theorem ProcessMessages_returns_input :
    ∀ (counter : List (Option Message) → Except String (List Int))
      (summarizer : String → Except String Message)
      (maxBefore maxRecent : Int) (messages out : List (Option Message)),
      ProcessMessages counter summarizer maxBefore maxRecent messages = Except.ok out →
      out = messages := by
  intro c s mb mr msgs out h
  unfold ProcessMessages at h
  split at h
  · exact (Except.ok.inj h).symm
  · split at h
    · exact absurd h (by simp)
    · split at h
      · exact absurd h (by simp)
      · simp only [] at h
        split at h
        · exact (Except.ok.inj h).symm
        · split at h
          · exact absurd h (by simp)
          · exact (Except.ok.inj h).symm

/-- Witness for C4 at a concrete over-threshold input with a succeeding
summarizer. -/
theorem ProcessMessages_returns_input_witness :
    ([some (UserMessage "hi")] : List (Option Message)) = [some (UserMessage "hi")] :=
  ProcessMessages_returns_input counter100 okSummarizer 10 5
    [some (UserMessage "hi")] [some (UserMessage "hi")] rfl

/-- C5: when the summed token count exceeds the (positive) threshold and the
summarizer invocation on the rendered older blocks fails, `ProcessMessages`
propagates the failure as an error and returns no message list. -/
theorem ProcessMessages_propagates_summarizer_error :
    ∀ (counter : List (Option Message) → Except String (List Int))
      (summarizer : String → Except String Message)
      (maxBefore maxRecent : Int) (messages : List (Option Message))
      (toks : List Int) (e : String),
      0 < maxBefore →
      counter messages = Except.ok toks →
      messages.length = toks.length →
      toks.foldl (fun a b => a + b) 0 > maxBefore →
      summarizer (joinBlocks (budgetSplit maxRecent (splitMessages messages toks).2.2.2).2.1) =
        Except.error e →
      ProcessMessages counter summarizer maxBefore maxRecent messages =
        Except.error ("summarize failed: " ++ e) := by
  intro c s mb mr msgs toks e hmb hc hlen hsum hs
  have hne : msgs ≠ [] := by
    intro h0
    subst h0
    have htk : toks = [] := List.length_eq_zero.mp hlen.symm
    subst htk
    simp [List.foldl] at hsum
    omega
  unfold ProcessMessages
  rw [if_neg hne, hc]
  split
  · next e2 heq => exact absurd heq (by simp)
  · next msgsToken heq =>
    obtain rfl : toks = msgsToken := Except.ok.inj heq
    rw [if_neg (by simp [hlen])]
    show (if List.foldl (fun a b => a + b) 0 toks ≤ mb then Except.ok msgs
      else
        match s (joinBlocks (budgetSplit mr (splitMessages msgs toks).2.2.2).2.1) with
        | Except.error e2 => Except.error ("summarize failed: " ++ e2)
        | Except.ok _ => Except.ok msgs) =
      Except.error ("summarize failed: " ++ e)
    rw [if_neg (by omega), hs]

/-- Witness for C5 at a concrete over-threshold input with a failing
summarizer. -/
theorem ProcessMessages_propagates_summarizer_error_witness :
    ProcessMessages counter100 errSummarizer 10 5 [some (UserMessage "hi")] =
      Except.error ("summarize failed: " ++ "boom") :=
  ProcessMessages_propagates_summarizer_error counter100 errSummarizer 10 5
    [some (UserMessage "hi")] [100] "boom" (by decide) rfl rfl (by decide) rfl

/-- Counterexample for C6 as stated: on the empty message list, a counter
whose result has length 1 ≠ 0 does not make `ProcessMessages` fail — the
empty-input short-circuit returns the list before the counter is consulted. -/
theorem ProcessMessages_mismatch_empty_cex :
    counterOne [] = Except.ok [(1 : Int)] ∧
    ([] : List (Option Message)).length ≠ [(1 : Int)].length ∧
    ProcessMessages counterOne okSummarizer 2000 500 [] =
      Except.ok ([] : List (Option Message)) :=
  ⟨rfl, by decide, rfl⟩

/-- C6 (amended to non-empty inputs): for every non-empty message list, if the
token counter returns a count list whose length differs from the message
count, `ProcessMessages` fails with the mismatch error for every summarizer —
no block classification, no summarization, no message list. -/
theorem ProcessMessages_mismatch_fails :
    ∀ (counter : List (Option Message) → Except String (List Int))
      (summarizer : String → Except String Message)
      (maxBefore maxRecent : Int) (messages : List (Option Message)) (toks : List Int),
      messages ≠ [] →
      counter messages = Except.ok toks →
      messages.length ≠ toks.length →
      ProcessMessages counter summarizer maxBefore maxRecent messages =
        Except.error ("token count mismatch: msgNum=" ++ toString messages.length ++
          ", tokenCountNum=" ++ toString toks.length) := by
  intro c s mb mr msgs toks hne hc hlen
  unfold ProcessMessages
  rw [if_neg hne, hc]
  split
  · next e2 heq => exact absurd heq (by simp)
  · next msgsToken heq =>
    obtain rfl : toks = msgsToken := Except.ok.inj heq
    rw [if_pos hlen]

/-- Witness for C6 (amended) at a concrete mismatching counter. -/
theorem ProcessMessages_mismatch_fails_witness :
    ProcessMessages counterOne okSummarizer 2000 500
      [some (UserMessage "a"), some (UserMessage "b")] =
      Except.error ("token count mismatch: msgNum=" ++ toString (2 : Nat) ++
        ", tokenCountNum=" ++ toString (1 : Nat)) :=
  ProcessMessages_mismatch_fails counterOne okSummarizer 2000 500
    [some (UserMessage "a"), some (UserMessage "b")] [1] (by decide) rfl (by decide)

/-- C7: for every non-empty message list whose summed token count is at or
below the threshold — including exactly equal — `ProcessMessages` returns the
input unchanged for every summarizer (so no summarization occurs); the
threshold is inclusive on the safe side. -/
theorem ProcessMessages_below_threshold_noop :
    ∀ (counter : List (Option Message) → Except String (List Int))
      (summarizer : String → Except String Message)
      (maxBefore maxRecent : Int) (messages : List (Option Message)) (toks : List Int),
      messages ≠ [] →
      counter messages = Except.ok toks →
      messages.length = toks.length →
      toks.foldl (fun a b => a + b) 0 ≤ maxBefore →
      ProcessMessages counter summarizer maxBefore maxRecent messages =
        Except.ok messages := by
  intro c s mb mr msgs toks hne hc hlen hsum
  unfold ProcessMessages
  rw [if_neg hne, hc]
  split
  · next e2 heq => exact absurd heq (by simp)
  · next msgsToken heq =>
    obtain rfl : toks = msgsToken := Except.ok.inj heq
    rw [if_neg (by simp [hlen])]
    show (if List.foldl (fun a b => a + b) 0 toks ≤ mb then Except.ok msgs
      else
        match s (joinBlocks (budgetSplit mr (splitMessages msgs toks).2.2.2).2.1) with
        | Except.error e2 => Except.error ("summarize failed: " ++ e2)
        | Except.ok _ => Except.ok msgs) =
      Except.ok msgs
    rw [if_pos hsum]

/-- Witness for C7 at a concrete input whose total equals the threshold
exactly, with a failing summarizer (which is therefore never consulted). -/
theorem ProcessMessages_below_threshold_noop_witness :
    ProcessMessages counter10 errSummarizer 10 5 [some (UserMessage "hi")] =
      Except.ok [some (UserMessage "hi")] :=
  ProcessMessages_below_threshold_noop counter10 errSummarizer 10 5
    [some (UserMessage "hi")] [10] (by decide) rfl rfl (by decide)

/-- C8: `GetOrCreateSession` never fails (it is total): an existing in-memory
session is returned with the registry unchanged; when absent, a persistence
miss or read error (`nil` messages, any error value) yields a newly installed
empty session; and a second call without an intervening clear returns the same
session and state regardless of the store — no second persistence read. -/
theorem GetOrCreateSession_spec :
    (∀ (store : String → ReadResult) (sessions : Sessions) (sessionID : String)
      (s : Session), sessions.lookup sessionID = some s →
      GetOrCreateSession store sessions sessionID = (s, sessions)) ∧
    (∀ (store : String → ReadResult) (sessions : Sessions) (sessionID : String),
      sessions.lookup sessionID = none → (store sessionID).1 = none →
      GetOrCreateSession store sessions sessionID =
        (⟨sessionID, []⟩, (sessionID, ⟨sessionID, []⟩) :: sessions)) ∧
    (∀ (store store2 : String → ReadResult) (sessions : Sessions) (sessionID : String),
      GetOrCreateSession store2 (GetOrCreateSession store sessions sessionID).2 sessionID =
        GetOrCreateSession store sessions sessionID) := by
  refine ⟨?_, ?_, ?_⟩
  · intro store sessions sessionID s h
    unfold GetOrCreateSession
    rw [h]
  · intro store sessions sessionID h hstore
    unfold GetOrCreateSession
    rw [h]
    simp [hstore]
  · intro store store2 sessions sessionID
    cases h : sessions.lookup sessionID with
    | some s => simp [GetOrCreateSession, h]
    | none => simp [GetOrCreateSession, h, List.lookup]

/-- Witness for C8: a read error on a fresh id installs an empty session. -/
theorem GetOrCreateSession_spec_witness :
    GetOrCreateSession (fun _ => (none, some "read failure")) [] "s1" =
      (⟨"s1", []⟩, [("s1", ⟨"s1", []⟩)]) :=
  GetOrCreateSession_spec.2.1 (fun _ => (none, some "read failure")) [] "s1" rfl rfl

/-- After `ClearSession`, the cleared id has no entry. -/
lemma ClearSession_lookup (sessions : Sessions) (sessionID : String) :
    (ClearSession sessions sessionID).lookup sessionID = none := by
  induction sessions with
  | nil => simp [ClearSession]
  | cons hd tl ih =>
    rcases hd with ⟨k, v⟩
    by_cases hk : k = sessionID
    · simpa [ClearSession, hk] using ih
    · have hbeq : (sessionID == k) = false := by simp [Ne.symm hk]
      simp only [ClearSession, List.filter] at ih ⊢
      simp only [List.lookup, hk, hbeq]
      simpa [hk] using ih

/-- C10: on a session id with no in-memory entry — never created, or removed
by `ClearSession` — `AppendAssistantMessage` is a silent no-op: it is total
(no error), installs nothing, and leaves the whole session map unchanged. -/
theorem AppendAssistantMessage_missing_noop :
    (∀ (sessions : Sessions) (sessionID : String) (message : Message),
      sessions.lookup sessionID = none →
      AppendAssistantMessage sessions sessionID message = sessions) ∧
    (∀ (sessions : Sessions) (sessionID : String) (message : Message),
      AppendAssistantMessage (ClearSession sessions sessionID) sessionID message =
        ClearSession sessions sessionID) := by
  constructor
  · intro sessions sessionID message h
    unfold AppendAssistantMessage
    rw [h]
  · intro sessions sessionID message
    unfold AppendAssistantMessage
    rw [ClearSession_lookup]

/-- Witness for C10 on a concrete map missing the appended id. -/
theorem AppendAssistantMessage_missing_noop_witness :
    AppendAssistantMessage [("a", ⟨"a", []⟩)] "b" (UserMessage "x") =
      [("a", ⟨"a", []⟩)] :=
  AppendAssistantMessage_missing_noop.1 [("a", ⟨"a", []⟩)] "b" (UserMessage "x")
    (by decide)

/-- Decoding inverts encoding for tool-call lists. -/
lemma decodeToolCalls_encode (tcs : List ToolCall) (rest : List EncTok) :
    decodeToolCalls tcs.length ((tcs.map encodeToolCall).flatten ++ rest) =
      some (tcs, rest) := by
  induction tcs with
  | nil => simp [decodeToolCalls]
  | cons tc tl ih =>
    rcases tc with ⟨i, n, a⟩
    simp [encodeToolCall, decodeToolCalls, ih]

/-- Decoding inverts encoding for annotation lists. -/
lemma decodeExtra_encode (ex : List (String × String)) (rest : List EncTok) :
    decodeExtra ex.length ((ex.map (fun kv => [EncTok.s kv.1, EncTok.s kv.2])).flatten ++ rest) =
      some (ex, rest) := by
  induction ex with
  | nil => simp [decodeExtra]
  | cons kv tl ih =>
    rcases kv with ⟨k, v⟩
    simp [decodeExtra, ih]

/-- Decoding inverts encoding for one message. -/
lemma decodeMsg_encode (m : Message) (rest : List EncTok) :
    decodeMsg (encodeMsg m ++ rest) = some (m, rest) := by
  rcases m with ⟨r, c, tcs, tcid, ex⟩
  simp only [encodeMsg, List.cons_append, List.append_assoc, List.nil_append]
  simp only [decodeMsg]
  rw [decodeToolCalls_encode]
  simp [decodeExtra_encode]

/-- Decoding inverts encoding for message lists. -/
lemma decodeMsgList_encode (msgs : List Message) (rest : List EncTok) :
    decodeMsgList msgs.length ((msgs.map encodeMsg).flatten ++ rest) = some (msgs, rest) := by
  induction msgs with
  | nil => simp [decodeMsgList]
  | cons m tl ih =>
    simp only [List.map_cons, List.flatten_cons, List.append_assoc, List.length_cons]
    simp [decodeMsgList, decodeMsg_encode, ih]

/-- C9: writing a message list under a session id and reading it back yields
the same list, equal in every field (role, content, tool calls, annotations);
and the modelled serialization decodes what it encodes, identically. -/
theorem Store_write_read_roundtrip :
    (∀ (data : StoreData) (sessionID : String) (M : List Message),
      InMemoryStore.Read (InMemoryStore.Write data sessionID M) sessionID = some M) ∧
    (∀ M : List Message, DecodeMessages (EncodeMessages M) = some M) := by
  constructor
  · intro data sessionID M
    simp [InMemoryStore.Read, InMemoryStore.Write, List.lookup]
  · intro M
    have h := decodeMsgList_encode M []
    rw [List.append_nil] at h
    simp [EncodeMessages, DecodeMessages, h]

/-- A structured MCP tool result whose single text part is "42"
(braces written as hex escapes):
`\x7b"content":[\x7b"type":"text","text":"42"\x7d]\x7d`. -/
def mcpToolJson : String :=
  "\x7b\"content\":[\x7b\"type\":\"text\",\"text\":\"42\"\x7d]\x7d"

/-- A Tool-role message answering call id "t1" with the structured MCP
payload; as for every Tool-role message produced by the executor, its
`ToolCalls` list is empty and its originating id is in `ToolCallID`. -/
def c2msg : Message := ⟨Tool, mcpToolJson, [], "t1", []⟩

/-- C2 (exhibits the divergence): on a Tool-role message with structured
tool-output and originating call id "t1", the `AfterChatModel` middleware
does flatten the content to "42", but the replacement message carries
`ToolCallID = ""` — `msg.ToolCalls[0].ID` read by the code is empty on
Tool-role messages — so the originating id "t1" is not preserved, contrary
to the claim and to the code's own comment. -/
theorem afterChatModel_drops_toolCallID :
    afterChatModel [c2msg] = [⟨Tool, "42", [], "", []⟩] ∧
    c2msg.ToolCallID = "t1" ∧ ("" : String) ≠ "t1" :=
  ⟨by decide, rfl, by decide⟩

end Claims
